import Mathlib

/-!
Verification of `scripts/math_helper.py`.

The script computes compound yield, linear yield and share price with
Python's `decimal` module (context precision 50, rounding half-even,
Emax 999999, Emin -999999, with InvalidOperation, DivisionByZero and
Overflow trapped) and renders results as `"0x" + hex(int(value))[2:].zfill(64)`.

The embedding models `Decimal` values by their exact rational value and each
arithmetic operation as the exact rational operation followed by the context
rounding step (round to 50 significant digits, half-even, exponent clamped at
Etiny, Overflow trapped).  The one operation whose result is not rational,
`x ** y` for fractional `y` and positive base `x ∉ {0, 1}` (an internal
high-precision exp/ln evaluation), is abstracted as a function parameter
`fpow`; all theorems about the power-using entry points hold for every value
of that parameter.
-/

set_option maxRecDepth 8000

deriving instance DecidableEq for Except

/-- Trapped `decimal` signals (plus `infiniteResult`, see `decPow`). -/
inductive DecErr where
  | invalidOperation
  | divisionByZero
  | overflow
  | infiniteResult
  deriving DecidableEq

/-- Context precision set by `getcontext().prec = 50`. -/
def decPrec : ℕ := 50

/-- Default context Emax. -/
def decEmax : ℤ := 999999

/-- Default context Emin. -/
def decEmin : ℤ := -999999

/-- Least exponent of a subnormal digit: Emin - prec + 1. -/
def decEtiny : ℤ := decEmin - ((decPrec : ℤ) - 1)

/-- Fuel-driven base-10 digit count (1 for n = 0); fuel answers for fuel ≥ n. -/
def digitLenGo : ℕ → ℕ → ℕ
  | 0, _ => 1
  | fuel + 1, n => if n < 10 then 1 else digitLenGo fuel (n / 10) + 1

/-- Number of base-10 digits of a natural number (1 for 0). -/
def digitLen (n : ℕ) : ℕ := digitLenGo n n

/-- For q ≠ 0, the floor of log10 of the absolute value of q. -/
def ratFloorLog10 (q : ℚ) : ℤ :=
  if (10 : ℚ) ^ ((digitLen q.num.natAbs : ℤ) - (digitLen q.den : ℤ)) ≤ |q| then
    (digitLen q.num.natAbs : ℤ) - (digitLen q.den : ℤ)
  else (digitLen q.num.natAbs : ℤ) - (digitLen q.den : ℤ) - 1

/-- Round a rational to the nearest integer, ties to even (ROUND_HALF_EVEN). -/
def halfEvenInt (q : ℚ) : ℤ :=
  if q - ⌊q⌋ < 1 / 2 then ⌊q⌋
  else if 1 / 2 < q - ⌊q⌋ then ⌊q⌋ + 1
  else if ⌊q⌋ % 2 = 0 then ⌊q⌋ else ⌊q⌋ + 1

/-- Exponent of the least significant kept digit when rounding q: 50
significant digits, clamped below at Etiny (subnormal results). -/
def ctxScale (q : ℚ) : ℤ := max (ratFloorLog10 q - ((decPrec : ℤ) - 1)) decEtiny

/-- Value of q rounded to the context: half-even at the scale of `ctxScale`. -/
def roundVal (q : ℚ) : ℚ := (halfEvenInt (q / 10 ^ ctxScale q) : ℚ) * 10 ^ ctxScale q

/-- Context rounding applied by every `decimal` arithmetic operation: round to
50 significant digits half-even (with subnormal clamping), trap Overflow. -/
def ctxRound (q : ℚ) : Except DecErr ℚ :=
  if q = 0 then .ok 0
  else if roundVal q = 0 then .ok 0
  else if decEmax < ratFloorLog10 (roundVal q) then .error .overflow
  else .ok (roundVal q)

/-- `Decimal.__add__` under the script's context. -/
def ctxAdd (a b : ℚ) : Except DecErr ℚ := ctxRound (a + b)

/-- `Decimal.__mul__` under the script's context. -/
def ctxMul (a b : ℚ) : Except DecErr ℚ := ctxRound (a * b)

/-- `Decimal.__truediv__` under the script's context: `0/0` signals
InvalidOperation, `x/0` signals DivisionByZero (both trapped). -/
def ctxDiv (a b : ℚ) : Except DecErr ℚ :=
  if b = 0 then (if a = 0 then .error .invalidOperation else .error .divisionByZero)
  else ctxRound (a / b)

/-- `Decimal.__pow__` under the script's context.  Integral exponents use the
exact integer power (then context-rounded); `0 ** 0` signals InvalidOperation;
`0 ** negative` returns `Infinity`, a non-finite value on which every later
observation in this script fails (`int(Infinity)` in `_format_result` raises),
modelled as the error `infiniteResult`.  A fractional power of a negative base
signals InvalidOperation; `0` and `1` bases are exact; the remaining fractional
case is the module's high-precision approximation, abstracted as `fpow`. -/
def decPow (fpow : ℚ → ℚ → ℚ) (b e : ℚ) : Except DecErr ℚ :=
  if e.den = 1 then
    if b = 0 ∧ e = 0 then .error .invalidOperation
    else if b = 0 ∧ e < 0 then .error .infiniteResult
    else ctxRound (b ^ e.num)
  else
    if b < 0 then .error .invalidOperation
    else if b = 0 then (if e < 0 then .error .infiniteResult else .ok 0)
    else if b = 1 then .ok 1
    else ctxRound (fpow b e)

/-- Numeric value of a digit character. -/
def digitVal (c : Char) : ℕ := c.toNat - 48

/-- Value of a list of decimal digit characters, most significant first. -/
def natOfDigits (l : List Char) : ℕ := l.foldl (fun a c => 10 * a + digitVal c) 0

/-- Optional exponent part of a decimal literal (`e`/`E`, optional sign,
at least one digit), applied to an already-parsed mantissa. -/
def parseExpPart (l : List Char) (mant : ℚ) : Option ℚ :=
  match l with
  | [] => some mant
  | e :: rest =>
    if e = 'e' ∨ e = 'E' then
      let sd : ℤ × List Char :=
        match rest with
        | '+' :: r => (1, r)
        | '-' :: r => (-1, r)
        | r => (1, r)
      if sd.2 ≠ [] ∧ sd.2.all Char.isDigit then
        some (mant * 10 ^ (sd.1 * (natOfDigits sd.2 : ℤ)))
      else none
    else none

/-- Unsigned part of a decimal literal: digits, optional fraction, optional
exponent; at least one digit before or after the point. -/
def parseUnsigned (l : List Char) : Option ℚ :=
  let ip := l.takeWhile Char.isDigit
  let rest := l.dropWhile Char.isDigit
  match rest with
  | '.' :: r2 =>
    let fp := r2.takeWhile Char.isDigit
    let rest2 := r2.dropWhile Char.isDigit
    if ip.isEmpty ∧ fp.isEmpty then none
    else parseExpPart rest2 ((natOfDigits ip : ℚ) + (natOfDigits fp : ℚ) / 10 ^ fp.length)
  | _ => if ip.isEmpty then none else parseExpPart rest (natOfDigits ip)

/-- Signed decimal numeric literal. -/
def pythonDecimalOfList : List Char → Option ℚ
  | '+' :: r => parseUnsigned r
  | '-' :: r => (parseUnsigned r).map Neg.neg
  | l => parseUnsigned l

/-- `Decimal(s)` for a finite numeric string `s` (exact, no context rounding);
`none` when the string is not a valid finite decimal literal (the spec's §3
invariant admits only integer or decimal-point numeric forms). -/
def pythonDecimal (s : String) : Option ℚ := pythonDecimalOfList s.data

/-- Argument conversion `Decimal(arg)` in the `calculate_*` wrappers: an
unparseable literal signals InvalidOperation (ConversionSyntax). -/
def parseDecimalArg (s : String) : Except DecErr ℚ :=
  match pythonDecimal s with
  | some q => .ok q
  | none => .error .invalidOperation

/-- The sixteen lowercase hexadecimal digit characters. -/
def hexCharList : List Char := "0123456789abcdef".data

/-- Lowercase hexadecimal digit character for a value below 16. -/
def hexChar (d : ℕ) : Char := hexCharList.getD d '0'

/-- Fuel-driven little-endian hex digits; fuel answers for fuel ≥ n. -/
def hexDigitsGo : ℕ → ℕ → List Char
  | 0, _ => []
  | fuel + 1, n => if n = 0 then [] else hexChar (n % 16) :: hexDigitsGo fuel (n / 16)

/-- Hex digit characters of n, most significant first (`"0"` for 0), as
produced by Python's `hex` after the `0x` prefix. -/
def hexDigits (n : ℕ) : List Char := if n = 0 then ['0'] else (hexDigitsGo n n).reverse

/-- Python `hex(n)`: `0x…` for n ≥ 0 and `-0x…` for n < 0. -/
def pyHex (n : ℤ) : List Char :=
  if n < 0 then '-' :: '0' :: 'x' :: hexDigits n.natAbs
  else '0' :: 'x' :: hexDigits n.natAbs

/-- Python `str.zfill(w)`: left-pad with `'0'` to width w, keeping a leading
sign character in place. -/
def zfill (w : ℕ) (l : List Char) : List Char :=
  if w ≤ l.length then l
  else if l.headD ' ' = '-' ∨ l.headD ' ' = '+' then
    l.headD ' ' :: (List.replicate (w - l.length) '0' ++ l.tail)
  else List.replicate (w - l.length) '0' ++ l

/-- Python `int(Decimal)`: truncation toward zero. -/
def intTrunc (q : ℚ) : ℤ := if 0 ≤ q then ⌊q⌋ else ⌈q⌉

/-- `_format_result`: `"0x" + hex(int(value))[2:].zfill(64)`. -/
def _format_result (value : ℚ) : String :=
  ⟨'0' :: 'x' :: zfill 64 ((pyHex (intTrunc value)).drop 2)⟩

/-- `_calculate_compound_yield`: `principal * (1 + rate_ppm/1e6) ** (time_seconds/86400)`. -/
def _calculate_compound_yield (fpow : ℚ → ℚ → ℚ) (principal rate_ppm time_seconds : ℚ) :
    Except DecErr ℚ := do
  let daily_rate ← ctxDiv rate_ppm 1000000
  let time_days ← ctxDiv time_seconds 86400
  let base ← ctxAdd 1 daily_rate
  let pw ← decPow fpow base time_days
  ctxMul principal pw

/-- `_calculate_linear_yield`:
`principal + (principal * rate_ppm * time_seconds) / (Decimal("1000000") * Decimal("86400"))`. -/
def _calculate_linear_yield (principal rate_ppm time_seconds : ℚ) : Except DecErr ℚ := do
  let m1 ← ctxMul principal rate_ppm
  let m2 ← ctxMul m1 time_seconds
  let denom ← ctxMul 1000000 86400
  let yield_amount ← ctxDiv m2 denom
  ctxAdd principal yield_amount

/-- `_calculate_share_price`: compound total assets, then `* 1e18 / total_supply`. -/
def _calculate_share_price (fpow : ℚ → ℚ → ℚ) (pool_size total_supply rate_ppm time_seconds : ℚ) :
    Except DecErr ℚ := do
  let total_assets ← _calculate_compound_yield fpow pool_size rate_ppm time_seconds
  let num ← ctxMul total_assets 1000000000000000000
  ctxDiv num total_supply

/-- `calculate_compound_yield`: parse the three arguments, compute, format. -/
def calculate_compound_yield (fpow : ℚ → ℚ → ℚ) (principal rate_ppm time_seconds : String) :
    Except DecErr String := do
  let p ← parseDecimalArg principal
  let r ← parseDecimalArg rate_ppm
  let t ← parseDecimalArg time_seconds
  let final_amount ← _calculate_compound_yield fpow p r t
  pure (_format_result final_amount)

/-- `calculate_linear_yield`: parse the three arguments, compute, format. -/
def calculate_linear_yield (principal rate_ppm time_seconds : String) :
    Except DecErr String := do
  let p ← parseDecimalArg principal
  let r ← parseDecimalArg rate_ppm
  let t ← parseDecimalArg time_seconds
  let final_amount ← _calculate_linear_yield p r t
  pure (_format_result final_amount)

/-- `calculate_share_price`: the literal string `"0"` short-circuits to the
encoded constant 10^18 before any argument is parsed; otherwise parse all four
arguments, compute, format. -/
def calculate_share_price (fpow : ℚ → ℚ → ℚ)
    (pool_size total_supply rate_ppm time_seconds : String) : Except DecErr String :=
  if total_supply = "0" then .ok (_format_result 1000000000000000000)
  else do
    let pool ← parseDecimalArg pool_size
    let supply ← parseDecimalArg total_supply
    let r ← parseDecimalArg rate_ppm
    let t ← parseDecimalArg time_seconds
    let sp ← _calculate_share_price fpow pool supply r t
    pure (_format_result sp)

/-- An arbitrary instantiation of the abstracted fractional-power routine,
used to state concrete evaluations; none of those evaluations reach the
fractional-power branch of `decPow`. -/
def fpowZero : ℚ → ℚ → ℚ := fun _ _ => 0

/-- Modelled from the spec (§4.2): the claimed encoding of a negative value,
"format the integer's absolute magnitude in lowercase hexadecimal without a
sign; left-pad with 0 to exactly 64 hex digits; prefix with 0x". -/
def specEncodeMagnitude (n : ℤ) : String := ⟨'0' :: 'x' :: zfill 64 (hexDigits n.natAbs)⟩

/-- A rational that the 50-digit context represents exactly and in range:
zero, or `c · 10^k` with at most 50 significant digits, exponent at least
Etiny and adjusted exponent at most Emax. -/
def DecExact (q : ℚ) : Prop :=
  q = 0 ∨ ((∃ c k : ℤ, q = (c : ℚ) * 10 ^ k ∧ c.natAbs < 10 ^ 50 ∧ decEtiny ≤ k) ∧
    ratFloorLog10 q ≤ decEmax)

/-! ### Auxiliary lemmas -/

theorem digitLenGo_pos (fuel n : ℕ) : 1 ≤ digitLenGo fuel n := by
  cases fuel with
  | zero => simp [digitLenGo]
  | succ f =>
    rw [digitLenGo]
    split <;> omega

theorem digitLenGo_spec (fuel : ℕ) : ∀ n : ℕ, n ≤ fuel → n ≠ 0 →
    10 ^ (digitLenGo fuel n - 1) ≤ n ∧ n < 10 ^ digitLenGo fuel n := by
  induction fuel with
  | zero => intro n hn h0; omega
  | succ f ih =>
    intro n hn h0
    rw [digitLenGo]
    split
    · rename_i hlt
      exact ⟨by simpa using Nat.one_le_iff_ne_zero.mpr h0, by simpa using hlt⟩
    · rename_i hge
      push_neg at hge
      have hle : n / 10 ≤ f := by
        have h2 := Nat.div_lt_self (show 0 < n by omega) (show 1 < 10 by norm_num)
        omega
      have hne : n / 10 ≠ 0 := by
        have h3 : 1 ≤ n / 10 := (Nat.one_le_div_iff (by norm_num)).mpr hge
        omega
      obtain ⟨hlo, hhi⟩ := ih (n / 10) hle hne
      have hL1 : 1 ≤ digitLenGo f (n / 10) := digitLenGo_pos f (n / 10)
      set L := digitLenGo f (n / 10) with hLdef
      constructor
      · have e1 : L + 1 - 1 = (L - 1) + 1 := by omega
        rw [e1, pow_succ]
        calc 10 ^ (L - 1) * 10 ≤ (n / 10) * 10 := Nat.mul_le_mul_right 10 hlo
        _ ≤ n := Nat.div_mul_le_self n 10
      · rw [pow_succ]
        have h5 : n < (n / 10 + 1) * 10 := by
          have h6 := Nat.div_add_mod n 10
          have hm : n % 10 < 10 := Nat.mod_lt _ (by norm_num)
          omega
        calc n < (n / 10 + 1) * 10 := h5
        _ ≤ 10 ^ L * 10 := Nat.mul_le_mul_right 10 hhi

theorem digitLen_spec (n : ℕ) (h0 : n ≠ 0) :
    10 ^ (digitLen n - 1) ≤ n ∧ n < 10 ^ digitLen n :=
  digitLenGo_spec n n le_rfl h0

theorem abs_eq_natAbs_div_den (q : ℚ) : |q| = (q.num.natAbs : ℚ) / (q.den : ℚ) := by
  rw [← Rat.num_div_den q, abs_div, abs_of_pos (show (0:ℚ) < (q.den : ℚ) by
    exact_mod_cast q.pos), Int.cast_natAbs, Int.cast_abs]
  rw [Rat.num_div_den]

theorem ratFloorLog10_le (q : ℚ) (hq : q ≠ 0) : (10 : ℚ) ^ ratFloorLog10 q ≤ |q| := by
  unfold ratFloorLog10
  split
  · rename_i h
    exact h
  · rename_i h
    have ha : q.num.natAbs ≠ 0 := by
      simpa using Rat.num_ne_zero.mpr hq
    have hb : q.den ≠ 0 := q.den_nz
    obtain ⟨ha1, _⟩ := digitLen_spec q.num.natAbs ha
    obtain ⟨_, hb2⟩ := digitLen_spec q.den hb
    have hda : 1 ≤ digitLen q.num.natAbs := digitLenGo_pos _ _
    set da := digitLen q.num.natAbs with hdaDef
    set db := digitLen q.den with hdbDef
    have habs : |q| = (q.num.natAbs : ℚ) / (q.den : ℚ) := abs_eq_natAbs_div_den q
    have hbpos : (0 : ℚ) < (q.den : ℚ) := by exact_mod_cast q.pos
    rw [habs, le_div_iff₀ hbpos]
    have hstep : (10 : ℚ) ^ ((da : ℤ) - db - 1) * (q.den : ℚ) <
        (10 : ℚ) ^ ((da : ℤ) - db - 1) * (10 : ℚ) ^ (db : ℤ) := by
      apply mul_lt_mul_of_pos_left _ (zpow_pos (by norm_num) _)
      rw [show ((10 : ℚ) ^ (db : ℤ)) = ((10 ^ db : ℕ) : ℚ) by push_cast [zpow_natCast]; ring]
      exact_mod_cast hb2
    have hcombine : (10 : ℚ) ^ ((da : ℤ) - db - 1) * (10 : ℚ) ^ (db : ℤ) =
        (10 : ℚ) ^ ((da : ℤ) - 1) := by
      rw [← zpow_add₀ (by norm_num : (10 : ℚ) ≠ 0)]
      congr 1
      ring
    have hfin : (10 : ℚ) ^ ((da : ℤ) - 1) ≤ (q.num.natAbs : ℚ) := by
      rw [show ((da : ℤ) - 1) = ((da - 1 : ℕ) : ℤ) by omega]
      rw [zpow_natCast]
      exact_mod_cast ha1
    have : (10 : ℚ) ^ ((da : ℤ) - db - 1) * (q.den : ℚ) < (q.num.natAbs : ℚ) := by
      calc (10 : ℚ) ^ ((da : ℤ) - db - 1) * (q.den : ℚ)
          < (10 : ℚ) ^ ((da : ℤ) - db - 1) * (10 : ℚ) ^ (db : ℤ) := hstep
        _ = (10 : ℚ) ^ ((da : ℤ) - 1) := hcombine
        _ ≤ (q.num.natAbs : ℚ) := hfin
    exact le_of_lt this

theorem halfEvenInt_intCast (z : ℤ) : halfEvenInt (z : ℚ) = z := by
  unfold halfEvenInt
  rw [Int.floor_intCast, sub_self]
  norm_num

theorem abs_cast_natAbs (c : ℤ) : ((c.natAbs : ℚ)) = |(c : ℚ)| := by
  rw [Int.cast_natAbs, Int.cast_abs]

theorem ctxRound_exact (q : ℚ) (h : DecExact q) : ctxRound q = .ok q := by
  by_cases hq0 : q = 0
  · rw [hq0]
    simp [ctxRound]
  · rcases h with h0 | ⟨⟨c, k, hq, hc, hk⟩, hlog⟩
    · exact absurd h0 hq0
    · have hten : (10 : ℚ) ≠ 0 := by norm_num
      have habs : |q| = (c.natAbs : ℚ) * (10 : ℚ) ^ k := by
        rw [hq, abs_mul, ← abs_cast_natAbs,
          abs_of_pos (zpow_pos (show (0 : ℚ) < 10 by norm_num) k)]
      have hnat : (c.natAbs : ℚ) < (10 : ℚ) ^ (50 : ℤ) := by
        rw [show (50 : ℤ) = ((50 : ℕ) : ℤ) from rfl, zpow_natCast]
        exact_mod_cast hc
      have hup : |q| < (10 : ℚ) ^ (k + 50) := by
        calc |q| = (c.natAbs : ℚ) * (10 : ℚ) ^ k := habs
          _ < (10 : ℚ) ^ (50 : ℤ) * (10 : ℚ) ^ k :=
            mul_lt_mul_of_pos_right hnat (zpow_pos (by norm_num) k)
          _ = (10 : ℚ) ^ (k + 50) := by
            rw [← zpow_add₀ hten]
            congr 1
            ring
      have hlogk : ratFloorLog10 q < k + 50 := by
        by_contra hcon
        push_neg at hcon
        have h2 := zpow_le_zpow_right₀ (show (1 : ℚ) ≤ 10 by norm_num) hcon
        have h3 := ratFloorLog10_le q hq0
        exact lt_irrefl _ (lt_of_le_of_lt (le_trans h2 h3) hup)
      have hsk : ctxScale q ≤ k := by
        have h4 : decEtiny ≤ k := hk
        simp only [ctxScale, decPrec, decEtiny, decEmin] at *
        push_cast at *
        apply max_le <;> omega
      set s := ctxScale q with hsdef
      have hpows : ((10 : ℚ) ^ ((k - s).toNat : ℕ)) = (10 : ℚ) ^ (k - s) := by
        rw [← zpow_natCast]
        congr 1
        exact Int.toNat_of_nonneg (by omega)
      have hexp : q / (10 : ℚ) ^ s = ((c * 10 ^ (k - s).toNat : ℤ) : ℚ) := by
        push_cast
        rw [div_eq_iff (zpow_ne_zero _ hten), hq, hpows, mul_assoc, ← zpow_add₀ hten,
          sub_add_cancel]
      have hr : (halfEvenInt (q / 10 ^ s) : ℚ) * 10 ^ s = q := by
        rw [hexp, halfEvenInt_intCast]
        push_cast
        rw [hq, hpows, mul_assoc, ← zpow_add₀ hten, sub_add_cancel]
      have hrv : roundVal q = q := by
        rw [roundVal, ← hsdef]
        exact hr
      unfold ctxRound
      rw [hrv]
      rw [if_neg hq0, if_neg hq0, if_neg (not_lt.mpr hlog)]

theorem ctxRound_one : ctxRound 1 = .ok 1 := by decide!

theorem ctxRound_zero : ctxRound 0 = .ok 0 := by simp [ctxRound]

theorem ctxMul_one_exact (p : ℚ) (h : DecExact p) : ctxMul p 1 = .ok p := by
  rw [ctxMul, mul_one]
  exact ctxRound_exact p h

theorem ctxAdd_zero_exact (p : ℚ) (h : DecExact p) : ctxAdd p 0 = .ok p := by
  rw [ctxAdd, add_zero]
  exact ctxRound_exact p h

theorem decPow_exp_zero (fpow : ℚ → ℚ → ℚ) (b : ℚ) (hb : b ≠ 0) :
    decPow fpow b 0 = .ok 1 := by
  rw [decPow, if_pos (show (0 : ℚ).den = 1 from rfl), if_neg (by simp [hb]),
    if_neg (by simp [hb]), show (0 : ℚ).num = 0 from rfl, zpow_zero]
  exact ctxRound_one

theorem decPow_base_one (fpow : ℚ → ℚ → ℚ) (e : ℚ) : decPow fpow 1 e = .ok 1 := by
  rw [decPow]
  by_cases h : e.den = 1
  · rw [if_pos h, if_neg (by norm_num), if_neg (by norm_num), one_zpow]
    exact ctxRound_one
  · rw [if_neg h, if_neg (by norm_num), if_neg (by norm_num), if_pos rfl]

theorem exceptBind_ok {α β : Type} (a : α) (f : α → Except DecErr β) :
    (Except.ok a : Except DecErr α) >>= f = f a := rfl

theorem exceptBind_error {α β : Type} (e : DecErr) (f : α → Except DecErr β) :
    (Except.error e : Except DecErr α) >>= f = .error e := rfl

theorem parseDecimalArg_some (s : String) (q : ℚ) (h : pythonDecimal s = some q) :
    parseDecimalArg s = .ok q := by
  simp [parseDecimalArg, h]

theorem parseDecimalArg_none (s : String) (h : pythonDecimal s = none) :
    parseDecimalArg s = .error .invalidOperation := by
  simp [parseDecimalArg, h]

theorem pythonDecimal_zero_lit : pythonDecimal "0" = some 0 := by decide!

theorem ctxDiv_zero_86400 : ctxDiv 0 86400 = .ok 0 := by decide!

theorem ctxDiv_zero_1000000 : ctxDiv 0 1000000 = .ok 0 := by decide!

theorem ctxAdd_one_zero : ctxAdd 1 0 = .ok 1 := by decide!

theorem ctxMul_linear_denominator : ctxMul 1000000 86400 = .ok 86400000000 := by decide!

theorem ctxDiv_zero_linear_denominator : ctxDiv 0 86400000000 = .ok 0 := by decide!

/-! ### String-side lemmas -/

theorem zfill_of_le (w : ℕ) (l : List Char) (h : w ≤ l.length) : zfill w l = l := by
  rw [zfill, if_pos h]

theorem zfill_no_sign (w : ℕ) (l : List Char)
    (h : ∀ c ∈ l.take 1, c ≠ '-' ∧ c ≠ '+') :
    zfill w l = List.replicate (w - l.length) '0' ++ l := by
  rw [zfill]
  split
  · rename_i h1
    rw [Nat.sub_eq_zero_of_le h1]
    simp
  · split
    · rename_i h2
      exfalso
      cases l with
      | nil => simp at h2
      | cons c rest =>
        have hc := h c (by simp)
        simp [List.headD] at h2
        rcases h2 with h2 | h2
        · exact hc.1 h2
        · exact hc.2 h2
    · rfl

theorem getD_mem_or_eq (l : List Char) : ∀ (n : ℕ) (d : Char),
    l.getD n d ∈ l ∨ l.getD n d = d := by
  induction l with
  | nil =>
    intro n d
    right
    simp [List.getD]
  | cons a t ih =>
    intro n d
    cases n with
    | zero =>
      left
      simp
    | succ m =>
      rw [List.getD_cons_succ]
      rcases ih m d with h | h
      · exact Or.inl (List.mem_cons_of_mem a h)
      · exact Or.inr h

theorem hexChar_mem (d : ℕ) : hexChar d ∈ hexCharList := by
  rcases getD_mem_or_eq hexCharList d '0' with h | h
  · exact h
  · rw [hexChar, h]
    decide

theorem hexCharList_props : ∀ c ∈ hexCharList, c ≠ '-' ∧ c ≠ '+' ∧ c ≠ 'x' := by decide

theorem hexDigitsGo_subset (fuel : ℕ) : ∀ (n : ℕ), ∀ c ∈ hexDigitsGo fuel n, c ∈ hexCharList := by
  induction fuel with
  | zero =>
    intro n c hc
    simp [hexDigitsGo] at hc
  | succ f ih =>
    intro n c hc
    rw [hexDigitsGo] at hc
    split at hc
    · simp at hc
    · rcases List.mem_cons.mp hc with h | h
      · rw [h]
        exact hexChar_mem _
      · exact ih _ c h

theorem hexDigits_subset (n : ℕ) : ∀ c ∈ hexDigits n, c ∈ hexCharList := by
  intro c hc
  rw [hexDigits] at hc
  split at hc
  · simp at hc
    rw [hc]
    decide
  · exact hexDigitsGo_subset n n c (List.mem_reverse.mp hc)

theorem hexDigitsGo_spec (fuel : ℕ) : ∀ n : ℕ, n ≤ fuel →
    n < 16 ^ (hexDigitsGo fuel n).length ∧
      (n ≠ 0 → 16 ^ ((hexDigitsGo fuel n).length - 1) ≤ n) := by
  induction fuel with
  | zero =>
    intro n hn
    constructor
    · simpa [hexDigitsGo] using by omega
    · intro h0
      omega
  | succ f ih =>
    intro n hn
    rw [hexDigitsGo]
    split
    · rename_i h0
      constructor
      · simpa using by omega
      · intro hne
        exact absurd h0 hne
    · rename_i h0
      have hle : n / 16 ≤ f := by
        have h2 := Nat.div_lt_self (show 0 < n by omega) (show 1 < 16 by norm_num)
        omega
      obtain ⟨hhi, hlo⟩ := ih (n / 16) hle
      set L := (hexDigitsGo f (n / 16)).length with hL
      constructor
      · simp only [List.length_cons]
        rw [pow_succ]
        have h5 : n < (n / 16 + 1) * 16 := by
          have h6 := Nat.div_add_mod n 16
          have hm : n % 16 < 16 := Nat.mod_lt _ (by norm_num)
          omega
        calc n < (n / 16 + 1) * 16 := h5
          _ ≤ 16 ^ L * 16 := Nat.mul_le_mul_right 16 hhi
      · intro _
        simp only [List.length_cons]
        rw [← hL]
        by_cases hd : n / 16 = 0
        · have : L = 0 := by
            rw [hL, hd]
            cases f <;> simp [hexDigitsGo]
          rw [this]
          simpa using by omega
        · have hL1 : 1 ≤ L := by
            by_contra hcon
            push_neg at hcon
            interval_cases L
            · simp at hhi
              omega
          have e1 : L + 1 - 1 = (L - 1) + 1 := by omega
          rw [e1, pow_succ]
          calc 16 ^ (L - 1) * 16 ≤ (n / 16) * 16 := Nat.mul_le_mul_right 16 (hlo hd)
            _ ≤ n := Nat.div_mul_le_self n 16

theorem pow16_64 : (16 : ℕ) ^ 64 = 2 ^ 256 := by norm_num

theorem hexDigits_length_le (n : ℕ) (h : n < 2 ^ 256) : (hexDigits n).length ≤ 64 := by
  rw [hexDigits]
  split
  · simp
  · rename_i h0
    rw [List.length_reverse]
    by_contra hcon
    push_neg at hcon
    obtain ⟨_, hlo⟩ := hexDigitsGo_spec n n le_rfl
    have h1 : (16 : ℕ) ^ 64 ≤ 16 ^ ((hexDigitsGo n n).length - 1) :=
      Nat.pow_le_pow_right (by norm_num) (by omega)
    have h2 := hlo h0
    rw [pow16_64] at h1
    omega

theorem hexDigits_length_gt (n : ℕ) (h : 2 ^ 256 ≤ n) : 64 < (hexDigits n).length := by
  rw [hexDigits]
  split
  · rename_i h0
    rw [h0] at h
    exact absurd h (by norm_num)
  · rw [List.length_reverse]
    obtain ⟨hhi, _⟩ := hexDigitsGo_spec n n le_rfl
    by_contra hcon
    push_neg at hcon
    have h1 : (16 : ℕ) ^ (hexDigitsGo n n).length ≤ 16 ^ 64 :=
      Nat.pow_le_pow_right (by norm_num) hcon
    rw [pow16_64] at h1
    omega

theorem format_result_of_nonneg (q : ℚ) (h : 0 ≤ intTrunc q) :
    _format_result q = String.mk ('0' :: 'x' :: zfill 64 (hexDigits (intTrunc q).natAbs)) := by
  rw [_format_result, pyHex, if_neg (not_lt.mpr h)]
  rfl

theorem format_result_of_neg (q : ℚ) (h : intTrunc q < 0) :
    _format_result q =
      String.mk ('0' :: 'x' :: zfill 64 ('x' :: hexDigits (intTrunc q).natAbs)) := by
  rw [_format_result, pyHex, if_pos h]
  rfl

theorem nosign_of_hexDigits (m : ℕ) : ∀ c ∈ (hexDigits m).take 1, c ≠ '-' ∧ c ≠ '+' := by
  intro c hc
  have h5 : c ∈ hexDigits m := List.take_subset 1 _ hc
  have h6 := hexCharList_props c (hexDigits_subset m c h5)
  exact ⟨h6.1, h6.2.1⟩

/-! ### Claims about the encoder -/

/-- Claim C1, counterexample: encoding the negative value -1000 does not give
the sign-discarded magnitude encoding that the spec describes (the code
produces `0x…0x3e8` with a stray `x`, not `0x…03e8`). -/
theorem encode_negative_not_magnitude_cex :
    intTrunc (-1000 : ℚ) < 0 ∧
      _format_result (-1000) ≠ specEncodeMagnitude (intTrunc (-1000 : ℚ)) := by decide!

/-- Claim C1, amended: for a value truncating to a negative integer,
`_format_result` drops the first two characters of Python's `-0x…`, leaving
`x` + magnitude digits, zero-padded to 64; the result never equals the
magnitude encoding claimed by the spec. -/
theorem encode_negative_stray_x (q : ℚ) (h : intTrunc q < 0) :
    _format_result q =
      String.mk ('0' :: 'x' :: zfill 64 ('x' :: hexDigits (intTrunc q).natAbs)) ∧
    _format_result q ≠ specEncodeMagnitude (intTrunc q) := by
  refine ⟨format_result_of_neg q h, ?_⟩
  rw [format_result_of_neg q h, specEncodeMagnitude]
  intro heq
  have heq2 : ('0' :: 'x' :: zfill 64 ('x' :: hexDigits (intTrunc q).natAbs)) =
      ('0' :: 'x' :: zfill 64 (hexDigits (intTrunc q).natAbs)) := congrArg String.data heq
  simp only [List.cons.injEq, true_and] at heq2
  set m := (intTrunc q).natAbs with hm
  have h1 : 'x' ∈ zfill 64 ('x' :: hexDigits m) := by
    rw [zfill_no_sign]
    · exact List.mem_append_right _ (List.mem_cons_self _ _)
    · intro c hc
      simp at hc
      rw [hc]
      exact ⟨by decide, by decide⟩
  have h2 : 'x' ∉ zfill 64 (hexDigits m) := by
    rw [zfill_no_sign 64 _ (nosign_of_hexDigits m)]
    intro hmem
    rcases List.mem_append.mp hmem with h3 | h3
    · exact absurd (List.eq_of_mem_replicate h3) (by decide)
    · exact (hexCharList_props 'x' (hexDigits_subset m 'x' h3)).2.2 rfl
  rw [heq2] at h1
  exact h2 h1

/-- Claim C1, witness: the amended statement at the concrete value -1000. -/
theorem encode_negative_stray_x_witness :
    _format_result (-1000) =
      String.mk ('0' :: 'x' :: zfill 64 ('x' :: hexDigits (intTrunc (-1000 : ℚ)).natAbs)) ∧
    _format_result (-1000) ≠ specEncodeMagnitude (intTrunc (-1000 : ℚ)) :=
  encode_negative_stray_x (-1000) (by decide!)

/-- Claim C5, counterexample: the value -(2^252) truncates to an integer whose
magnitude fits in 256 bits, yet the encoded string has length 67, not 66. -/
theorem encode_width_cex :
    (intTrunc (-(2 ^ 252) : ℚ)).natAbs < 2 ^ 256 ∧
      (_format_result (-(2 ^ 252))).length ≠ 66 := by decide!

/-- Claim C5, amended: for values truncating to a NON-NEGATIVE integer below
2^256, the output is exactly 66 characters: `0x` followed by 64 characters,
all lowercase hexadecimal digits. -/
theorem encode_width_nonneg (q : ℚ) (h0 : 0 ≤ intTrunc q) (h : intTrunc q < 2 ^ 256) :
    (_format_result q).length = 66 ∧
    ∃ ds : List Char, _format_result q = String.mk ('0' :: 'x' :: ds) ∧ ds.length = 64 ∧
      ∀ c ∈ ds, c ∈ hexCharList := by
  set m := (intTrunc q).natAbs with hm
  have hmlt : m < 2 ^ 256 := by
    have h1 : ((m : ℤ)) = intTrunc q := Int.natAbs_of_nonneg h0
    have h2 : ((m : ℤ)) < (2 : ℤ) ^ 256 := by
      rw [h1]
      exact h
    exact_mod_cast h2
  have hlen : (hexDigits m).length ≤ 64 := hexDigits_length_le m hmlt
  have hz : zfill 64 (hexDigits m) =
      List.replicate (64 - (hexDigits m).length) '0' ++ hexDigits m :=
    zfill_no_sign 64 _ (nosign_of_hexDigits m)
  have hform := format_result_of_nonneg q h0
  rw [← hm] at hform
  constructor
  · rw [hform]
    show ('0' :: 'x' :: zfill 64 (hexDigits m)).length = 66
    rw [hz]
    simp only [List.length_cons, List.length_append, List.length_replicate]
    omega
  · refine ⟨zfill 64 (hexDigits m), hform, ?_, ?_⟩
    · rw [hz]
      simp only [List.length_append, List.length_replicate]
      omega
    · intro c hc
      rw [hz] at hc
      rcases List.mem_append.mp hc with h3 | h3
      · rw [List.eq_of_mem_replicate h3]
        decide
      · exact hexDigits_subset m c h3

/-- Claim C5, witness: the amended statement at the value 1000. -/
theorem encode_width_nonneg_witness :
    (_format_result 1000).length = 66 ∧
    ∃ ds : List Char, _format_result 1000 = String.mk ('0' :: 'x' :: ds) ∧ ds.length = 64 ∧
      ∀ c ∈ ds, c ∈ hexCharList :=
  encode_width_nonneg 1000 (by decide!) (by decide!)

/-- Claim C6: for a non-negative value truncating to at least 2^256, the
encoder neither errors nor truncates: it emits `0x` followed by the full
unpadded hexadecimal digits, more than 64 of them. -/
theorem encode_overflow_unpadded (q : ℚ) (h : 2 ^ 256 ≤ intTrunc q) :
    _format_result q = String.mk ('0' :: 'x' :: hexDigits (intTrunc q).natAbs) ∧
    64 < (hexDigits (intTrunc q).natAbs).length := by
  have h0 : 0 ≤ intTrunc q := le_trans (by positivity) h
  set m := (intTrunc q).natAbs with hm
  have hge : 2 ^ 256 ≤ m := by
    have h1 : ((m : ℤ)) = intTrunc q := Int.natAbs_of_nonneg h0
    have h2 : (2 : ℤ) ^ 256 ≤ ((m : ℤ)) := by
      rw [h1]
      exact h
    exact_mod_cast h2
  have hgt := hexDigits_length_gt m hge
  have hform := format_result_of_nonneg q h0
  rw [← hm] at hform
  rw [zfill_of_le 64 _ (by omega)] at hform
  exact ⟨hform, hgt⟩

/-- Claim C6, witness: the statement at the value 2^256 itself. -/
theorem encode_overflow_unpadded_witness :
    _format_result ((2 : ℚ) ^ 256) =
      String.mk ('0' :: 'x' :: hexDigits (intTrunc ((2 : ℚ) ^ 256)).natAbs) ∧
    64 < (hexDigits (intTrunc ((2 : ℚ) ^ 256)).natAbs).length :=
  encode_overflow_unpadded _ (by decide!)

/-- Claim C9, amended: the concrete scenario `linear_yield("1000","0","0")`
returns `0x` followed by 64 hex digits (61 zeros then `3e8`), one zero more
than the 63-digit literal printed in the spec. -/
theorem linear_concrete_scenario :
    calculate_linear_yield "1000" "0" "0" =
      .ok "0x00000000000000000000000000000000000000000000000000000000000003e8" := by decide!

/-- Claim C9, counterexample: the returned string is not the spec's literal,
which has only 63 digits after `0x`. -/
theorem linear_concrete_scenario_cex :
    calculate_linear_yield "1000" "0" "0" ≠
      .ok "0x0000000000000000000000000000000000000000000000000000000000003e8" := by decide!

/-! ### Claims about the computation paths -/

theorem decExact_1000 : DecExact 1000 :=
  Or.inr ⟨⟨1000, 0, by norm_num, by norm_num, by decide!⟩, by decide!⟩

/-- Claim C10: when `total_supply` is the literal string `"0"`,
`calculate_share_price` returns the encoded constant 10^18 before parsing any
other argument, so it succeeds even when the other arguments are not decimal
literals at all. -/
theorem share_price_short_circuit_no_parse :
    pythonDecimal "abc" = none ∧ pythonDecimal "xyz" = none ∧ pythonDecimal "!" = none ∧
    ∀ fpow : ℚ → ℚ → ℚ,
      calculate_share_price fpow "abc" "0" "xyz" "!" =
        .ok (_format_result 1000000000000000000) := by
  refine ⟨by decide!, by decide!, by decide!, ?_⟩
  intro fpow
  rw [calculate_share_price, if_pos rfl]

/-- Claim C2, counterexample: `"00"` parses to zero but is not the literal
`"0"`, so the short-circuit is skipped and the division by the parsed zero
total supply fails instead of returning the 10^18 encoding. -/
theorem share_price_zero_valued_string_cex :
    pythonDecimal "00" = some 0 ∧
    calculate_share_price fpowZero "1" "00" "0" "0" = .error .divisionByZero ∧
    calculate_share_price fpowZero "1" "00" "0" "0" ≠
      .ok (_format_result 1000000000000000000) := by decide!

/-- Claim C2, amended: the fixed 10^18 encoding is returned exactly when the
total-supply argument is the literal string `"0"`; for any other string whose
parsed value is zero, the computation always fails (division by the zero
supply, or an earlier parse/arithmetic error), never returning a value. -/
theorem share_price_zero_supply :
    (∀ (fpow : ℚ → ℚ → ℚ) (pool rate time : String),
      calculate_share_price fpow pool "0" rate time =
        .ok (_format_result 1000000000000000000)) ∧
    (∀ (fpow : ℚ → ℚ → ℚ) (pool rate time s : String), s ≠ "0" →
      pythonDecimal s = some 0 →
      ∃ e, calculate_share_price fpow pool s rate time = .error e) := by
  constructor
  · intro fpow pool rate time
    rw [calculate_share_price, if_pos rfl]
  · intro fpow pool rate time s hs hs0
    rw [calculate_share_price, if_neg hs]
    cases hpool : parseDecimalArg pool with
    | error e =>
      exact ⟨e, by simp only [hpool, exceptBind_error]⟩
    | ok pv =>
      simp only [hpool, exceptBind_ok, parseDecimalArg_some s 0 hs0]
      cases hrate : parseDecimalArg rate with
      | error e =>
        exact ⟨e, by simp only [hrate, exceptBind_error, exceptBind_ok]⟩
      | ok rv =>
        simp only [hrate, exceptBind_ok]
        cases htime : parseDecimalArg time with
        | error e =>
          exact ⟨e, by simp only [htime, exceptBind_error, exceptBind_ok]⟩
        | ok tv =>
          simp only [htime, exceptBind_ok, _calculate_share_price]
          cases hcy : _calculate_compound_yield fpow pv rv tv with
          | error e =>
            exact ⟨e, by simp only [hcy, exceptBind_error]⟩
          | ok ta =>
            simp only [hcy, exceptBind_ok]
            cases hm : ctxMul ta 1000000000000000000 with
            | error e =>
              exact ⟨e, by simp only [hm, exceptBind_error]⟩
            | ok num =>
              simp only [hm, exceptBind_ok, ctxDiv, if_pos rfl]
              by_cases hn : num = 0
              · exact ⟨.invalidOperation, by rw [if_pos hn]; rfl⟩
              · exact ⟨.divisionByZero, by rw [if_neg hn]; rfl⟩

/-- Claim C2, witness: the two halves of the amended statement at concrete
arguments, with the zero-valued non-literal supply `"0.0"`. -/
theorem share_price_zero_supply_witness :
    calculate_share_price fpowZero "7" "0" "5000" "86400" =
      .ok (_format_result 1000000000000000000) ∧
    ∃ e, calculate_share_price fpowZero "7" "0.0" "5000" "86400" = .error e :=
  ⟨share_price_zero_supply.1 fpowZero "7" "5000" "86400",
    share_price_zero_supply.2 fpowZero "7" "5000" "86400" "0.0" (by decide) (by decide!)⟩

/-- Claim C3, counterexample: at rate -1000000 the base `1 + daily_rate` is
zero and `0 ** 0` signals InvalidOperation, so `compound_yield(p, r, "0")`
does not return the encoding of p. -/
theorem compound_zero_time_cex :
    calculate_compound_yield fpowZero "1" "-1000000" "0" = .error .invalidOperation ∧
    calculate_compound_yield fpowZero "1" "-1000000" "0" ≠ .ok (_format_result 1) := by decide!

/-- Claim C3, amended: with zero elapsed time, `compound_yield` returns the
encoding of the principal whenever the computed base `1 + rate/1e6` is
nonzero and the principal is exactly representable in the 50-digit context. -/
theorem compound_zero_time (fpow : ℚ → ℚ → ℚ) (p r : String) (pv rv dv bv : ℚ)
    (hp : pythonDecimal p = some pv) (hr : pythonDecimal r = some rv)
    (hd : ctxDiv rv 1000000 = .ok dv) (hb : ctxAdd 1 dv = .ok bv) (hb0 : bv ≠ 0)
    (hexact : DecExact pv) :
    calculate_compound_yield fpow p r "0" = .ok (_format_result pv) := by
  rw [calculate_compound_yield]
  simp only [parseDecimalArg_some p pv hp, parseDecimalArg_some r rv hr,
    parseDecimalArg_some "0" 0 pythonDecimal_zero_lit, exceptBind_ok]
  rw [_calculate_compound_yield]
  simp only [hd, exceptBind_ok, ctxDiv_zero_86400, hb, decPow_exp_zero fpow bv hb0,
    ctxMul_one_exact pv hexact]
  rfl

/-- Claim C3, witness: the amended statement at principal 1000, rate 0. -/
theorem compound_zero_time_witness :
    calculate_compound_yield fpowZero "1000" "0" "0" = .ok (_format_result 1000) :=
  compound_zero_time fpowZero "1000" "0" 1000 0 0 1 (by decide!) (by decide!) (by decide!)
    (by decide!) (by decide!) decExact_1000

/-- Claim C4, counterexample: a 51-significant-digit principal is rounded by
the context (to 10^50 + 10), so the zero-rate linear yield is not the
encoding of the principal's own truncation. -/
theorem zero_rate_cex :
    calculate_linear_yield "100000000000000000000000000000000000000000000000009" "0" "0"
        = .ok (_format_result ((10 : ℚ) ^ 50 + 10)) ∧
    calculate_linear_yield "100000000000000000000000000000000000000000000000009" "0" "0"
        ≠ .ok (_format_result ((10 : ℚ) ^ 50 + 9)) := by decide!

/-- Claim C4, amended: for a non-negative principal exactly representable in
the 50-digit context, and any time whose day conversion does not overflow,
linear and compound yield at rate "0" both return the encoding of the
principal. -/
theorem zero_rate_no_growth (fpow : ℚ → ℚ → ℚ) (p t : String) (pv tv : ℚ)
    (hp : pythonDecimal p = some pv) (_hpos : 0 ≤ pv) (ht : pythonDecimal t = some tv)
    (hexact : DecExact pv) (hdays : ∃ dv, ctxDiv tv 86400 = .ok dv) :
    calculate_linear_yield p "0" t = .ok (_format_result pv) ∧
    calculate_compound_yield fpow p "0" t = .ok (_format_result pv) := by
  obtain ⟨dv, hdv⟩ := hdays
  constructor
  · rw [calculate_linear_yield]
    simp only [parseDecimalArg_some p pv hp, parseDecimalArg_some "0" 0 pythonDecimal_zero_lit,
      parseDecimalArg_some t tv ht, exceptBind_ok]
    rw [_calculate_linear_yield]
    have h1 : ctxMul pv 0 = .ok 0 := by
      rw [ctxMul, mul_zero]
      exact ctxRound_zero
    have h2 : ctxMul 0 tv = .ok 0 := by
      rw [ctxMul, zero_mul]
      exact ctxRound_zero
    simp only [h1, exceptBind_ok, h2, ctxMul_linear_denominator,
      ctxDiv_zero_linear_denominator, ctxAdd_zero_exact pv hexact]
    rfl
  · rw [calculate_compound_yield]
    simp only [parseDecimalArg_some p pv hp, parseDecimalArg_some "0" 0 pythonDecimal_zero_lit,
      parseDecimalArg_some t tv ht, exceptBind_ok]
    rw [_calculate_compound_yield]
    simp only [ctxDiv_zero_1000000, exceptBind_ok, hdv, ctxAdd_one_zero,
      decPow_base_one fpow dv, ctxMul_one_exact pv hexact]
    rfl

/-- Claim C4, witness: the amended statement at principal 1000 and one day. -/
theorem zero_rate_no_growth_witness :
    calculate_linear_yield "1000" "0" "86400" = .ok (_format_result 1000) ∧
    calculate_compound_yield fpowZero "1000" "0" "86400" = .ok (_format_result 1000) :=
  zero_rate_no_growth fpowZero "1000" "86400" 1000 86400 (by decide!) (by decide!)
    (by decide!) decExact_1000 ⟨1, by decide!⟩

/-- Claim C8, counterexample: at rate -2000000 (daily rate -200%) and one
whole day the exponent is the integer 1, and `(-1) ** 1` is defined, so the
computation succeeds instead of failing with a domain error. -/
theorem compound_negative_rate_cex :
    (-2000000 : ℚ) < -1000000 ∧
    calculate_compound_yield fpowZero "1" "-2000000" "86400" =
      .ok (_format_result (-1)) := by decide!

/-- Claim C8, amended: `compound_yield` fails with InvalidOperation whenever
the computed base `1 + rate/1e6` is negative AND the computed day count is not
an integer; with an integral day count a negative base raises no error. -/
theorem compound_negative_base_fractional_error (fpow : ℚ → ℚ → ℚ) (p r t : String)
    (rv tv dv bv ev : ℚ)
    (hr : pythonDecimal r = some rv) (ht : pythonDecimal t = some tv)
    (hd : ctxDiv rv 1000000 = .ok dv) (hb : ctxAdd 1 dv = .ok bv) (hneg : bv < 0)
    (he : ctxDiv tv 86400 = .ok ev) (hfrac : ev.den ≠ 1) :
    calculate_compound_yield fpow p r t = .error .invalidOperation := by
  rw [calculate_compound_yield]
  cases hp : parseDecimalArg p with
  | error e =>
    have he2 : e = .invalidOperation := by
      cases hq : pythonDecimal p with
      | some q =>
        rw [parseDecimalArg_some p q hq] at hp
        simp at hp
      | none =>
        rw [parseDecimalArg_none p hq] at hp
        simp only [Except.error.injEq] at hp
        exact hp.symm
    subst he2
    simp only [hp, exceptBind_error]
  | ok pv =>
    simp only [hp, exceptBind_ok, parseDecimalArg_some r rv hr,
      parseDecimalArg_some t tv ht]
    rw [_calculate_compound_yield]
    simp only [hd, exceptBind_ok, he, hb]
    rw [decPow, if_neg hfrac, if_pos hneg]
    simp only [exceptBind_error]

/-- Claim C8, witness: the amended statement at rate -2000000 (base -1) and a
half day (exponent 1/2). -/
theorem compound_negative_base_fractional_error_witness :
    calculate_compound_yield fpowZero "1" "-2000000" "43200" = .error .invalidOperation :=
  compound_negative_base_fractional_error fpowZero "1" "-2000000" "43200" (-2000000) 43200
    (-2) (-1) (1 / 2) (by decide!) (by decide!) (by decide!) (by decide!) (by decide!)
    (by decide!) (by decide!)

